import Mathlib

/-!
Shallow embedding of the steganography-app core
(`src/algorithms/lsb.py`, `src/algorithms/dct.py`, `src/core/steganography.py`,
`src/core/encryption.py`, `src/analysis/quality_metrics.py`) and proofs about
the behaviour claimed by the specification.

Images (numpy arrays of `uint8`) are modelled as a shape (2-D `(H, W)` or 3-D
`(H, W, C)`) together with the flattened row-major list of samples, each a
`Nat` below 256.  Python `bytes`/`bytearray` values are lists of `Nat` below
256.  Python integer arithmetic (arbitrary precision, floor division) is
modelled with `Int` and `Int.fdiv`.  Functions that raise exceptions are
modelled with `Except String`.
-/

namespace StegApp

/-- The shape of a numpy image array: either 2-D `(height, width)` (grayscale)
or 3-D `(height, width, channels)`. -/
inductive Shape where
  | two (h w : Nat)
  | three (h w c : Nat)
  deriving DecidableEq

/-- Total number of samples of an array of this shape; this is what
`LSBSteganography.embed` computes as `total_capacity`
(`total_pixels * channels` for 3-D arrays, `total_pixels` for 2-D ones). -/
def Shape.total : Shape → Nat
  | .two h w => h * w
  | .three h w c => h * w * c

/-- A numpy image array: shape plus the flattened (row-major) samples. -/
structure Img where
  shape : Shape
  data : List Nat
  deriving DecidableEq

/-! ### LSB bit plumbing (`algorithms/lsb.py`) -/

/-- `format(byte, "08b")`: the 8 bits of a byte, most significant first
(each entry is `0` or `1`). -/
def toBits8 (b : Nat) : List Nat :=
  [b / 128 % 2, b / 64 % 2, b / 32 % 2, b / 16 % 2,
   b / 8 % 2, b / 4 % 2, b / 2 % 2, b % 2]

/-- `"".join(format(byte, "08b") for byte in secret_data)`: the payload bytes
as a flat bit stream, most significant bit of each byte first. -/
def bytesToBits : List Nat → List Nat
  | [] => []
  | b :: bs => toBits8 b ++ bytesToBits bs

/-- `int(byte_str, 2)` on an 8-character bit string (most significant first). -/
def byteFromBits (bits : List Nat) : Nat :=
  bits.foldl (fun a bit => 2 * a + bit) 0

/-- The grouping loop of `LSBSteganography.extract`: take the extracted bit
stream in groups of 8 (`if i + 8 <= len(binary_data)` drops a trailing
incomplete group) and turn each group into a byte. -/
def bytesFromBits : List Nat → List Nat
  | b0 :: b1 :: b2 :: b3 :: b4 :: b5 :: b6 :: b7 :: rest =>
      byteFromBits [b0, b1, b2, b3, b4, b5, b6, b7] :: bytesFromBits rest
  | _ => []

/-- The embedding loop of `LSBSteganography.embed`:
`flat_image[i] = (flat_image[i] & 0xFE) | int(bit)` for each payload bit,
samples beyond the bit stream left unchanged (and bits beyond the image
ignored, mirroring the `if i < len(flat_image)` guard). -/
def setLSBs : List Nat → List Nat → List Nat
  | img, [] => img
  | [], _ => []
  | x :: xs, b :: bs => ((x &&& 0xFE) ||| b) :: setLSBs xs bs

/-- The delimiter-scanning loop of `LSBSteganography.extract`: append bytes
one at a time; as soon as the last four accumulated bytes are
`bytearray([0, 0, 0, 0])`, drop them and stop; if the stream ends without the
delimiter ever appearing, return everything accumulated. -/
def stopAtDelim : List Nat → List Nat → List Nat
  | acc, [] => acc
  | acc, b :: rest =>
      let acc' := acc ++ [b]
      if 4 ≤ acc'.length ∧ acc'.drop (acc'.length - 4) = [0, 0, 0, 0] then
        acc'.take (acc'.length - 4)
      else
        stopAtDelim acc' rest

/-- `LSBSteganography.get_capacity`: dispatch on the array shape
(`channels = 1` for 2-D arrays), compute `total_bits = height*width*channels`,
reserve 32 bits for the delimiter and return `max(0, usable_bits // 8)`.
The Python arbitrary-precision `int` and floor division are `Int` and
`Int.fdiv`. -/
def lsbGetCapacity (s : Shape) : Int :=
  let hwc : Nat × Nat × Nat :=
    match s with
    | .three h w c => (h, w, c)
    | .two h w => (h, w, 1)
  let totalBits : Int := (hwc.1 : Int) * hwc.2.1 * hwc.2.2
  let usableBits : Int := totalBits - 32
  max 0 (usableBits.fdiv 8)

/-- `LSBSteganography.embed` on a numpy array and a `bytes` payload: append
the 4-null-byte delimiter, turn the result into a bit stream, raise
`ValueError` if the stream does not fit into the image, otherwise overwrite
the least significant bits of the flattened samples in order.  The source
works on a copy of the original array (`image.copy()`), so the embedding is a
pure function returning a fresh array. -/
def lsbEmbed (image : Img) (secretData : List Nat) : Except String Img :=
  let withDelim := secretData ++ [0, 0, 0, 0]
  let binaryData := bytesToBits withDelim
  let totalCapacity := image.shape.total
  if binaryData.length > totalCapacity then
    .error "Image too small to hold data"
  else
    .ok { shape := image.shape, data := setLSBs image.data binaryData }

/-- `LSBSteganography.extract` up to (and excluding) the final
`.decode("utf-8", errors="ignore")`: read the least significant bit of the
first `min(len(flat_image), max_length * 8)` samples, group the bits into
bytes and scan for the delimiter.  The source then decodes this byte
sequence to text with decoding errors silently ignored; it has no failure
path (no exception is ever raised by `extract`). -/
def lsbExtractBytes (image : Img) (maxLength : Nat) : List Nat :=
  let binaryData := (image.data.take (maxLength * 8)).map (fun x => x &&& 1)
  stopAtDelim [] (bytesFromBits binaryData)

/-- The appended 4-null-byte delimiter is the first place where four
consecutive zero bytes occur in the embedded stream: no window of four
zero bytes starts inside `data` itself (this also rules out payloads whose
trailing zero bytes merge with the delimiter). -/
def noEarlyDelim (data : List Nat) : Prop :=
  ∀ i < data.length, ((data ++ [0, 0, 0, 0]).drop i).take 4 ≠ [0, 0, 0, 0]

instance (data : List Nat) : Decidable (noEarlyDelim data) := by
  unfold noEarlyDelim; infer_instance

/-! ### DCT capacity (`algorithms/dct.py`) -/

/-- `DCTSteganography.get_capacity`: dispatch on the array shape, count 8 by 8
blocks (`blocks_h = height // 8`, `blocks_w = width // 8`), one usable bit per
block, and return `max(0, usable_bits // 8)`. -/
def dctGetCapacity (s : Shape) : Int :=
  let hwc : Nat × Nat × Nat :=
    match s with
    | .three h w c => (h, w, c)
    | .two h w => (h, w, 1)
  let blocksH : Int := (hwc.1 : Int).fdiv 8
  let blocksW : Int := (hwc.2.1 : Int).fdiv 8
  let totalBlocks : Int := blocksH * blocksW * hwc.2.2
  let usableBits : Int := totalBlocks * 1
  max 0 (usableBits.fdiv 8)

/-- Modelled from the spec for the C7 refinement comparison:
"capacity(I, LSB) == floor((H*W*C - 32)/8)", "floored at 0 when the
expression is negative".  `Int.fdiv` is floor division. -/
def specLsbCapacityFormula (h w c : Nat) : Int :=
  max 0 ((((h : Int) * w * c) - 32).fdiv 8)

/-- Modelled from the spec for the C8 comparison:
"the DCT algorithm's capacity in bytes equals floor((H*W)/64)". -/
def specDctCapacityFormula (h w : Nat) : Int :=
  ((h : Int) * w).fdiv 64

/-! ### Engine framing and orchestration (`core/steganography.py`) -/

/-- The result of `SteganographyEngine._parse_header`. -/
structure HeaderInfo where
  encrypted : Bool
  compressed : Bool
  encryptionMethod : String
  headerSize : Nat
  deriving DecidableEq

/-- the `method_map` dictionary looked up with
`method_map.get(method_id, "AES-256")`: an unrecognized id silently falls
back to the default `"AES-256"`. -/
def methodName (methodId : Nat) : String :=
  if methodId = 0 then "AES-256"
  else if methodId = 1 then "ChaCha20"
  else if methodId = 2 then "Fernet"
  else "AES-256"

/-- `SteganographyEngine._parse_header`: raise `ValueError` when fewer than
2 bytes are present, otherwise read the flags byte and the method id byte. -/
def parseHeader (data : List Nat) : Except String HeaderInfo :=
  if data.length < 2 then .error "Invalid data format"
  else
    let flags := data[0]!
    let methodId := data[1]!
    .ok { encrypted := flags &&& 1 != 0, compressed := flags &&& 2 != 0,
          encryptionMethod := methodName methodId, headerSize := 2 }

/-- `SteganographyEngine._create_header`: a flags byte (bit 0 encrypted,
bit 1 compressed) followed by the method id byte. -/
def createHeader (encrypted compressed : Bool) (encryptionMethod : String) : List Nat :=
  let flags := (if encrypted then 1 else 0) ||| (if compressed then 2 else 0)
  let methodId :=
    if encryptionMethod = "AES-256" then 0
    else if encryptionMethod = "ChaCha20" then 1
    else if encryptionMethod = "Fernet" then 2
    else 0
  [flags, methodId]

/-- The capacity check and embedding dispatch inside
`SteganographyEngine.encode_async`: the prepared message length is compared
against `self.algorithms[algorithm].get_capacity(image)` and a `ValueError`
(`"Message too large. Max capacity: ..."`) is raised before
`self.algorithms[algorithm].embed` is ever invoked.  The algorithm is kept
abstract as its capacity function and embedding function. -/
def encodeTask (getCapacity : Shape → Int)
    (embedFn : Img → List Nat → Except String Img)
    (image : Img) (processedMessage : List Nat) : Except String Img :=
  let capacity := getCapacity image.shape
  if (processedMessage.length : Int) > capacity then
    .error "Message too large"
  else
    embedFn image processedMessage

/-- RFC 3629 UTF-8 validity of a byte sequence: whether `bytes.decode("utf-8")`
succeeds.  (`_process_extracted_data` ends with such a decode; on invalid
bytes Python raises `UnicodeDecodeError`, a subclass of `ValueError`.) -/
def utf8Valid : List Nat → Bool
  | [] => true
  | b :: rest =>
    if b ≤ 0x7F then utf8Valid rest
    else if 0xC2 ≤ b ∧ b ≤ 0xDF then
      match rest with
      | c1 :: rest2 =>
          if 0x80 ≤ c1 ∧ c1 ≤ 0xBF then utf8Valid rest2 else false
      | [] => false
    else if b = 0xE0 then
      match rest with
      | c1 :: c2 :: rest2 =>
          if (0xA0 ≤ c1 ∧ c1 ≤ 0xBF) ∧ (0x80 ≤ c2 ∧ c2 ≤ 0xBF) then utf8Valid rest2
          else false
      | _ => false
    else if (0xE1 ≤ b ∧ b ≤ 0xEC) ∨ b = 0xEE ∨ b = 0xEF then
      match rest with
      | c1 :: c2 :: rest2 =>
          if (0x80 ≤ c1 ∧ c1 ≤ 0xBF) ∧ (0x80 ≤ c2 ∧ c2 ≤ 0xBF) then utf8Valid rest2
          else false
      | _ => false
    else if b = 0xED then
      match rest with
      | c1 :: c2 :: rest2 =>
          if (0x80 ≤ c1 ∧ c1 ≤ 0x9F) ∧ (0x80 ≤ c2 ∧ c2 ≤ 0xBF) then utf8Valid rest2
          else false
      | _ => false
    else if b = 0xF0 then
      match rest with
      | c1 :: c2 :: c3 :: rest2 =>
          if (0x90 ≤ c1 ∧ c1 ≤ 0xBF) ∧ (0x80 ≤ c2 ∧ c2 ≤ 0xBF)
              ∧ (0x80 ≤ c3 ∧ c3 ≤ 0xBF) then utf8Valid rest2
          else false
      | _ => false
    else if 0xF1 ≤ b ∧ b ≤ 0xF3 then
      match rest with
      | c1 :: c2 :: c3 :: rest2 =>
          if (0x80 ≤ c1 ∧ c1 ≤ 0xBF) ∧ (0x80 ≤ c2 ∧ c2 ≤ 0xBF)
              ∧ (0x80 ≤ c3 ∧ c3 ≤ 0xBF) then utf8Valid rest2
          else false
      | _ => false
    else if b = 0xF4 then
      match rest with
      | c1 :: c2 :: c3 :: rest2 =>
          if (0x80 ≤ c1 ∧ c1 ≤ 0x8F) ∧ (0x80 ≤ c2 ∧ c2 ≤ 0xBF)
              ∧ (0x80 ≤ c3 ∧ c3 ≤ 0xBF) then utf8Valid rest2
          else false
      | _ => false
    else false

/-- `SteganographyEngine._process_extracted_data`: parse the 2-byte header,
take the body after `header_size`, decrypt ONLY when the encrypted flag is
set AND a nonempty password was supplied
(`if header_info["encrypted"] and password:` - a falsy empty string skips
decryption silently), decompress when the compressed flag is set, and decode
the result as UTF-8 text (modelled as the underlying byte sequence).  The
external collaborators `EncryptionManager.decrypt` and `zlib.decompress` are
abstract parameters. -/
def processExtractedData
    (decryptFn : List Nat → String → String → Except String (List Nat))
    (decompressFn : List Nat → Except String (List Nat))
    (data : List Nat) (password : String) : Except String (List Nat) :=
  (parseHeader data).bind fun headerInfo =>
    (if headerInfo.encrypted ∧ password ≠ "" then
        decryptFn (data.drop headerInfo.headerSize) password headerInfo.encryptionMethod
      else pure (data.drop headerInfo.headerSize)).bind fun messageData =>
      (if headerInfo.compressed then decompressFn messageData
        else pure messageData).bind fun messageData2 =>
        if utf8Valid messageData2 then .ok messageData2
        else .error "UnicodeDecodeError"

/-! ### Encryption manager (`core/encryption.py`) -/

/-- The external `cryptography` library primitives used by
`EncryptionManager`, kept abstract: the key derivation
(PBKDF2-HMAC-SHA256 with 100000 iterations - a deterministic function of
password and salt), the AES-256-CBC cipher, the ChaCha20 stream cipher and
the Fernet authenticated-token construction (the base64 re-encoding of the
derived key on the Fernet path is a deterministic step absorbed into the
abstract functions).  Their inverse properties are library guarantees,
stated as hypotheses of the C2 theorem and discharged by a concrete
instantiation in the witness. -/
structure CryptoPrimitives where
  deriveKey : String → List Nat → List Nat
  aesCbcEnc : List Nat → List Nat → List Nat → List Nat
  aesCbcDec : List Nat → List Nat → List Nat → List Nat
  chachaEnc : List Nat → List Nat → List Nat → List Nat
  chachaDec : List Nat → List Nat → List Nat → List Nat
  fernetEnc : List Nat → List Nat → List Nat
  fernetDec : List Nat → List Nat → Except String (List Nat)

/-- A trivial instantiation of the abstract library primitives (identity
ciphers), showing the hypotheses of the C2 theorem are satisfiable. -/
def idPrimitives : CryptoPrimitives where
  deriveKey := fun _ _ => []
  aesCbcEnc := fun _ _ x => x
  aesCbcDec := fun _ _ x => x
  chachaEnc := fun _ _ x => x
  chachaDec := fun _ _ x => x
  fernetEnc := fun _ x => x
  fernetDec := fun _ x => .ok x

/-- `EncryptionManager._pad_data`: PKCS-style padding to the 16-byte AES
block size; always appends between 1 and 16 bytes, each equal to the
padding length. -/
def padData (data : List Nat) : List Nat :=
  let paddingLength := 16 - data.length % 16
  data ++ List.replicate paddingLength paddingLength

/-- `EncryptionManager._unpad_data`: read the last byte
(`padded_data[-1]`, modelled totally with `getLast?`; the inputs produced
by `_pad_data` are never empty) as the padding length and drop that many
trailing bytes (`padded_data[:-padding_length]`). -/
def unpadData (padded : List Nat) : List Nat :=
  let paddingLength := (padded.getLast?).getD 0
  padded.take (padded.length - paddingLength)

/-- `EncryptionManager._encrypt_aes`: derive the key from the password and
a fresh 16-byte salt, CBC-encrypt the padded data under a fresh 16-byte IV,
and return `salt || iv || ciphertext`.  The `os.urandom` outputs are the
`salt` and `iv` arguments. -/
def encryptAes (P : CryptoPrimitives) (data : List Nat) (password : String)
    (salt iv : List Nat) : List Nat :=
  let key := P.deriveKey password salt
  salt ++ iv ++ P.aesCbcEnc key iv (padData data)

/-- `EncryptionManager._decrypt_aes`: split the blob as
`salt = blob[:16]`, `iv = blob[16:32]`, `ciphertext = blob[32:]`, re-derive
the key from the password and the recovered salt, decrypt and unpad. -/
def decryptAes (P : CryptoPrimitives) (encryptedData : List Nat)
    (password : String) : List Nat :=
  let salt := encryptedData.take 16
  let iv := (encryptedData.drop 16).take 16
  let ciphertext := encryptedData.drop 32
  let key := P.deriveKey password salt
  unpadData (P.aesCbcDec key iv ciphertext)

/-- `EncryptionManager._encrypt_chacha20`: blob `salt || nonce || ciphertext`
with a 16-byte salt and a 12-byte nonce, no padding. -/
def encryptChacha (P : CryptoPrimitives) (data : List Nat) (password : String)
    (salt nonce : List Nat) : List Nat :=
  let key := P.deriveKey password salt
  salt ++ nonce ++ P.chachaEnc key nonce data

/-- `EncryptionManager._decrypt_chacha20`: `salt = blob[:16]`,
`nonce = blob[16:28]`, `ciphertext = blob[28:]`. -/
def decryptChacha (P : CryptoPrimitives) (encryptedData : List Nat)
    (password : String) : List Nat :=
  let salt := encryptedData.take 16
  let nonce := (encryptedData.drop 16).take 12
  let ciphertext := encryptedData.drop 28
  let key := P.deriveKey password salt
  P.chachaDec key nonce ciphertext

/-- `EncryptionManager._encrypt_fernet`: blob `salt || token`. -/
def encryptFernet (P : CryptoPrimitives) (data : List Nat) (password : String)
    (salt : List Nat) : List Nat :=
  let key := P.deriveKey password salt
  salt ++ P.fernetEnc key data

/-- `EncryptionManager._decrypt_fernet`: `salt = blob[:16]`,
`ciphertext = blob[16:]`; Fernet decryption is the only path that can fail
(authentication), hence the `Except` result. -/
def decryptFernet (P : CryptoPrimitives) (encryptedData : List Nat)
    (password : String) : Except String (List Nat) :=
  let salt := encryptedData.take 16
  let ciphertext := encryptedData.drop 16
  let key := P.deriveKey password salt
  P.fernetDec key ciphertext

/-- `EncryptionManager.encrypt`: dispatch on the method name, raising
`ValueError` for unsupported methods.  The random salt/iv/nonce inputs are
threaded as arguments. -/
def encryptManager (P : CryptoPrimitives) (data : List Nat) (password : String)
    (method : String) (salt iv nonce : List Nat) : Except String (List Nat) :=
  if method = "AES-256" then .ok (encryptAes P data password salt iv)
  else if method = "ChaCha20" then .ok (encryptChacha P data password salt nonce)
  else if method = "Fernet" then .ok (encryptFernet P data password salt)
  else .error "Unsupported encryption method"

/-- `EncryptionManager.decrypt`: dispatch on the method name. -/
def decryptManager (P : CryptoPrimitives) (encryptedData : List Nat)
    (password : String) (method : String) : Except String (List Nat) :=
  if method = "AES-256" then .ok (decryptAes P encryptedData password)
  else if method = "ChaCha20" then .ok (decryptChacha P encryptedData password)
  else if method = "Fernet" then decryptFernet P encryptedData password
  else .error "Unsupported decryption method"

/-! ### Quality metrics (`analysis/quality_metrics.py`) -/

/-- The value of the PSNR metric: `float("inf")` or a finite float
(float arithmetic modelled as exact reals; in IEEE double precision the
finite branch below can never overflow to infinity, since a nonzero mean
of nonnegative integers over n samples is at least 1/n, so the
two-constructor model is faithful). -/
inductive PsnrValue where
  | inf
  | val (x : ℝ)

/-- `np.mean((original_image.astype(float) - stego_image.astype(float)) ** 2)`:
the true mean squared error that `analyze_quality` stores in the report
after converting both arrays to float. -/
noncomputable def mseVal (orig stego : List Nat) : ℝ :=
  (((orig.zip stego).map (fun p => ((p.1 : ℝ) - (p.2 : ℝ)) ^ 2)).sum) / orig.length

/-- One per-pixel term of the expression
`((original_image - stego_image) ** 2)` as `calculate_psnr` evaluates it on
the RAW image arrays: both operands are numpy `uint8` (images are loaded as
`np.array(pil_image)` with no `astype`), so the difference wraps modulo 256
and so does its square (`** 2` keeps the `uint8` dtype).  For samples
`a, b < 256` the wrapped difference is `(a + 256 - b) % 256`. -/
def wrapSqDiff (a b : Nat) : Nat :=
  (((a + 256 - b) % 256) ^ 2) % 256

/-- The internal `mse` of `calculate_psnr`:
`((original_image - stego_image) ** 2).mean()` on the raw `uint8` arrays -
the float mean of the per-pixel WRAPPED squared differences, which can be 0
even when the images differ (for example when every per-pixel difference is
16, since 16 squared is 0 modulo 256). -/
noncomputable def mseUint8 (orig stego : List Nat) : ℝ :=
  (((orig.zip stego).map (fun p => (wrapSqDiff p.1 p.2 : ℝ))).sum) / orig.length

/-- `calculate_psnr`: `float("inf")` when its internally computed,
uint8-wrapped MSE is exactly 0 (the `mse == 0` float comparison is exact),
otherwise `20 * log10(255.0 / sqrt(mse))` on that same wrapped MSE. -/
noncomputable def calculatePsnr (orig stego : List Nat) : PsnrValue :=
  if mseUint8 orig stego = 0 then .inf
  else .val (20 * Real.logb 10 (255 / Real.sqrt (mseUint8 orig stego)))

/-- The fields of the `analyze_quality` report that the claims refer to.
The remaining fields (ssim, mae, histogram correlation, quality score) are
not mentioned by any claim and are omitted from the model. -/
structure QualityReport where
  psnr : PsnrValue
  mse : ℝ

/-- `QualityAnalyzer.analyze_quality` (psnr and mse fields): raise
`ValueError` when the two images differ in shape; `psnr` from
`calculate_psnr` (modelled here is the cited fallback `calculate_psnr`,
which operates on the raw `uint8` arrays; when scikit-image is importable
the source calls its `peak_signal_noise_ratio` instead, which converts the
arrays and computes the un-wrapped formula);
`mse = np.mean((original.astype(float) - stego.astype(float)) ** 2)`, the
true MSE without wraparound. -/
noncomputable def analyzeQuality (orig stego : Img) : Except String QualityReport :=
  if orig.shape ≠ stego.shape then .error "Images must have the same dimensions"
  else .ok { psnr := calculatePsnr orig.data stego.data,
             mse := mseVal orig.data stego.data }

/-! ### Helper lemmas about the LSB bit plumbing -/

theorem land_one_of_lt_two {b : Nat} (hb : b < 2) : b &&& 1 = b := by
  interval_cases b <;> decide

/-- Writing a bit into a sample with `(x & 0xFE) | b` makes its LSB `b`. -/
theorem lsb_of_write (x b : Nat) (hb : b < 2) : ((x &&& 0xFE) ||| b) &&& 1 = b := by
  rw [Nat.and_distrib_right, Nat.and_assoc]
  have h1 : (0xFE : Nat) &&& 1 = 0 := by decide
  rw [h1, Nat.and_zero, Nat.zero_or, land_one_of_lt_two hb]

/-- Writing a bit into a sample with `(x & 0xFE) | b` keeps the upper 7 bits. -/
theorem hi_bits_of_write (x b : Nat) (hb : b < 2) :
    ((x &&& 0xFE) ||| b) &&& 0xFE = x &&& 0xFE := by
  rw [Nat.and_distrib_right, Nat.and_assoc]
  have h1 : (0xFE : Nat) &&& 0xFE = 0xFE := by decide
  have h2 : b &&& 0xFE = 0 := by interval_cases b <;> decide
  rw [h1, h2, Nat.or_zero]

theorem byteFromBits_toBits8 {b : Nat} (hb : b < 256) :
    byteFromBits (toBits8 b) = b := by
  simp only [byteFromBits, toBits8, List.foldl]
  omega

theorem length_toBits8 (b : Nat) : (toBits8 b).length = 8 := rfl

theorem length_bytesToBits (bs : List Nat) :
    (bytesToBits bs).length = 8 * bs.length := by
  induction bs with
  | nil => rfl
  | cons b bs ih => simp [bytesToBits, ih, length_toBits8]; omega

theorem mem_bytesToBits_lt_two {bs : List Nat} :
    ∀ b ∈ bytesToBits bs, b < 2 := by
  induction bs with
  | nil => intro b hb; cases hb
  | cons x bs ih =>
      intro b hb
      simp only [bytesToBits, List.mem_append] at hb
      rcases hb with hb | hb
      · simp only [toBits8, List.mem_cons, List.not_mem_nil, or_false] at hb
        rcases hb with h | h | h | h | h | h | h | h <;> subst h <;> omega
      · exact ih b hb

theorem bytesFromBits_bytesToBits_append (bs tail : List Nat)
    (h : ∀ b ∈ bs, b < 256) :
    bytesFromBits (bytesToBits bs ++ tail) = bs ++ bytesFromBits tail := by
  induction bs with
  | nil => rfl
  | cons b bs ih =>
      have hb : b < 256 := h b (List.mem_cons_self b bs)
      have hbs : ∀ x ∈ bs, x < 256 := fun x hx => h x (List.mem_cons_of_mem b hx)
      simp only [bytesToBits, toBits8, List.cons_append, List.append_assoc]
      show byteFromBits [b / 128 % 2, b / 64 % 2, b / 32 % 2, b / 16 % 2,
        b / 8 % 2, b / 4 % 2, b / 2 % 2, b % 2] :: bytesFromBits (bytesToBits bs ++ tail)
        = b :: (bs ++ bytesFromBits tail)
      rw [ih hbs]
      have := byteFromBits_toBits8 hb
      simp only [toBits8] at this
      rw [this]

theorem length_setLSBs (xs bits : List Nat) :
    (setLSBs xs bits).length = xs.length := by
  induction xs generalizing bits with
  | nil => cases bits <;> rfl
  | cons x xs ih => cases bits with
      | nil => rfl
      | cons b bs => simp [setLSBs, ih]

theorem map_land_one_setLSBs (bits xs : List Nat)
    (hbits : ∀ b ∈ bits, b < 2) (hlen : bits.length ≤ xs.length) :
    (setLSBs xs bits).map (fun x => x &&& 1)
      = bits ++ (xs.drop bits.length).map (fun x => x &&& 1) := by
  induction bits generalizing xs with
  | nil => cases xs <;> rfl
  | cons b bs ih =>
      cases xs with
      | nil => simp at hlen
      | cons x xs =>
          have hb : b < 2 := hbits b (List.mem_cons_self b bs)
          have hbs : ∀ y ∈ bs, y < 2 := fun y hy => hbits y (List.mem_cons_of_mem b hy)
          simp only [setLSBs, List.map_cons, lsb_of_write x b hb, List.length_cons,
            List.drop_succ_cons, List.cons_append]
          rw [ih xs hbs (by simpa using hlen)]

theorem map_hi_bits_setLSBs (bits xs : List Nat)
    (hbits : ∀ b ∈ bits, b < 2) :
    (setLSBs xs bits).map (fun x => x &&& 0xFE) = xs.map (fun x => x &&& 0xFE) := by
  induction bits generalizing xs with
  | nil => cases xs <;> rfl
  | cons b bs ih =>
      cases xs with
      | nil => rfl
      | cons x xs =>
          have hb : b < 2 := hbits b (List.mem_cons_self b bs)
          have hbs : ∀ y ∈ bs, y < 2 := fun y hy => hbits y (List.mem_cons_of_mem b hy)
          simp only [setLSBs, List.map_cons, hi_bits_of_write x b hb]
          rw [ih xs hbs]

/-! ### Behaviour of the delimiter scan -/

theorem stopAtDelim_step (acc : List Nat) (b : Nat) (rest : List Nat) :
    stopAtDelim acc (b :: rest) =
      if 4 ≤ (acc ++ [b]).length ∧
          (acc ++ [b]).drop ((acc ++ [b]).length - 4) = [0, 0, 0, 0] then
        (acc ++ [b]).take ((acc ++ [b]).length - 4)
      else stopAtDelim (acc ++ [b]) rest := rfl

/-- If the four-null-byte window never occurs while scanning `data` followed
by the appended delimiter, the scan consumes exactly `data ++ [0,0,0,0]`,
strips the delimiter and returns `data`, whatever bytes follow. -/
theorem stopAtDelim_finds (data junk : List Nat)
    (h : ∀ i < data.length, ((data ++ [0, 0, 0, 0]).drop i).take 4 ≠ [0, 0, 0, 0]) :
    stopAtDelim [] (data ++ [0, 0, 0, 0] ++ junk) = data := by
  set D : List Nat := data ++ [0, 0, 0, 0] with hD
  have hDlen : D.length = data.length + 4 := by simp [hD]
  have key : ∀ m k, k + m = data.length + 3 →
      stopAtDelim (D.take k) (D.drop k ++ junk) = data := by
    intro m
    induction m with
    | zero =>
        intro k hk
        have hk3 : k = data.length + 3 := by omega
        subst hk3
        have hdropl : D.drop data.length = [0, 0, 0, 0] := List.drop_left' rfl
        have hdrop : D.drop (data.length + 3) = [0] := by
          have : D.drop (data.length + 3) = (D.drop data.length).drop 3 := by
            rw [List.drop_drop]
          rw [this, hdropl]
          rfl
        have hget : D[data.length + 3]? = some 0 := by
          have hlt : data.length + 3 < D.length := by omega
          rw [List.getElem?_eq_getElem hlt]
          have := List.drop_eq_getElem_cons hlt
          rw [hdrop] at this
          exact congrArg some (List.head_eq_of_cons_eq this.symm)
        have hacc : D.take (data.length + 3) ++ [0] = D := by
          have := List.take_succ (l := D) (n := data.length + 3)
          rw [hget] at this
          simp only [Option.toList_some] at this
          rw [← this]
          exact List.take_of_length_le (by omega)
        rw [hdrop]
        show stopAtDelim (D.take (data.length + 3)) (0 :: junk) = data
        rw [stopAtDelim_step, hacc]
        have hcond : 4 ≤ D.length ∧ D.drop (D.length - 4) = [0, 0, 0, 0] := by
          constructor
          · omega
          · have : D.length - 4 = data.length := by omega
            rw [this, hdropl]
        rw [if_pos hcond, hDlen]
        have : data.length + 4 - 4 = data.length := by omega
        rw [this, hD, List.take_left]
    | succ m ih =>
        intro k hk
        have hklt : k < D.length := by omega
        have hstep : D.drop k = D[k] :: D.drop (k + 1) := List.drop_eq_getElem_cons hklt
        have hacc : D.take k ++ [D[k]] = D.take (k + 1) := by
          have := List.take_succ (l := D) (n := k)
          rw [List.getElem?_eq_getElem hklt] at this
          simp only [Option.toList_some] at this
          exact this.symm
        rw [hstep]
        show stopAtDelim (D.take k) ((D[k] :: (D.drop (k + 1) ++ junk))) = data
        rw [stopAtDelim_step, hacc]
        have hlen' : (D.take (k + 1)).length = k + 1 := by
          rw [List.length_take]; omega
        have hcond : ¬(4 ≤ (D.take (k + 1)).length ∧
            (D.take (k + 1)).drop ((D.take (k + 1)).length - 4) = [0, 0, 0, 0]) := by
          rw [hlen']
          rintro ⟨h4, hwin⟩
          have hk3 : 3 ≤ k := by omega
          have : (D.take (k + 1)).drop (k + 1 - 4) = (D.drop (k - 3)).take 4 := by
            rw [List.drop_take]
            congr 1 <;> omega
          rw [this] at hwin
          exact h (k - 3) (by omega) hwin
        rw [if_neg hcond]
        have : D.take k ++ [D[k]] ++ (D.drop (k + 1) ++ junk)
            = D.take (k + 1) ++ (D.drop (k + 1) ++ junk) := by rw [hacc]
        exact ih (k + 1) (by omega)
  have h0 := key (data.length + 3) 0 (by omega)
  simpa using h0

/-- If the four-null-byte window never occurs anywhere in the byte stream,
the scan returns the whole stream: the source has no failure path here. -/
theorem stopAtDelim_all (stream : List Nat)
    (h : ∀ i < stream.length, (stream.drop i).take 4 ≠ [0, 0, 0, 0]) :
    stopAtDelim [] stream = stream := by
  have key : ∀ m k, k + m = stream.length →
      stopAtDelim (stream.take k) (stream.drop k) = stream := by
    intro m
    induction m with
    | zero =>
        intro k hk
        have : k = stream.length := by omega
        subst this
        rw [List.drop_length, List.take_length]
        rfl
    | succ m ih =>
        intro k hk
        have hklt : k < stream.length := by omega
        have hstep : stream.drop k = stream[k] :: stream.drop (k + 1) :=
          List.drop_eq_getElem_cons hklt
        have hacc : stream.take k ++ [stream[k]] = stream.take (k + 1) := by
          have := List.take_succ (l := stream) (n := k)
          rw [List.getElem?_eq_getElem hklt] at this
          simp only [Option.toList_some] at this
          exact this.symm
        rw [hstep, stopAtDelim_step, hacc]
        have hlen' : (stream.take (k + 1)).length = k + 1 := by
          rw [List.length_take]; omega
        have hcond : ¬(4 ≤ (stream.take (k + 1)).length ∧
            (stream.take (k + 1)).drop ((stream.take (k + 1)).length - 4)
              = [0, 0, 0, 0]) := by
          rw [hlen']
          rintro ⟨h4, hwin⟩
          have hk3 : 3 ≤ k := by omega
          have heq : (stream.take (k + 1)).drop (k + 1 - 4)
              = (stream.drop (k - 3)).take 4 := by
            rw [List.drop_take]
            congr 1 <;> omega
          rw [heq] at hwin
          exact h (k - 3) (by omega) hwin
        rw [if_neg hcond]
        exact ih (k + 1) (by omega)
  have h0 := key stream.length 0 (by omega)
  simpa using h0

theorem lsbGetCapacity_eq (s : Shape) :
    lsbGetCapacity s = max 0 (((s.total : Int) - 32).fdiv 8) := by
  cases s with
  | two h w => simp [lsbGetCapacity, Shape.total]
  | three h w c => simp [lsbGetCapacity, Shape.total]

/-- C1 (amended): for the LSB algorithm, if the payload length is within
`capacity(I, LSB)`, the carrier holds at least the 32 reserved delimiter
bits, the payload plus delimiter is within the extraction byte bound
(`max_length`, default 10000), and no four consecutive zero bytes occur
before the appended delimiter, then embedding succeeds and extraction
returns exactly the payload bytes (before the final lossy text decoding).
The round trip does not hold as claimed for every payload within capacity
(see the counterexample), nor for the DCT/DWT algorithms, whose `embed`
applies the `&`/`|` bit operators to float transform coefficients and
therefore raises `TypeError` on any nonempty payload. -/
theorem claim_C1_lsb_roundtrip_amended (img : Img) (data : List Nat) (maxLength : Nat)
    (hwf : img.data.length = img.shape.total)
    (hbytes : ∀ b ∈ data, b < 256)
    (hcap : (data.length : Int) ≤ lsbGetCapacity img.shape)
    (htotal : 32 ≤ img.shape.total)
    (hmax : data.length + 4 ≤ maxLength)
    (hnd : noEarlyDelim data) :
    (lsbEmbed img data).map (fun stego => lsbExtractBytes stego maxLength)
      = .ok data := by
  have hLlen : (bytesToBits (data ++ [0, 0, 0, 0])).length = 8 * (data.length + 4) := by
    rw [length_bytesToBits, List.length_append]
    rfl
  have hfits : (bytesToBits (data ++ [0, 0, 0, 0])).length ≤ img.shape.total := by
    rw [hLlen]
    rw [lsbGetCapacity_eq] at hcap
    have h8 : (0 : Int) ≤ 8 := by norm_num
    rw [Int.fdiv_eq_ediv _ h8] at hcap
    have hmax0 : max 0 (((img.shape.total : Int) - 32) / 8)
        = ((img.shape.total : Int) - 32) / 8 := by
      apply max_eq_right
      apply Int.ediv_nonneg _ (by norm_num)
      omega
    rw [hmax0] at hcap
    omega
  have hembed : lsbEmbed img data
      = .ok { shape := img.shape,
              data := setLSBs img.data (bytesToBits (data ++ [0, 0, 0, 0])) } := by
    rw [lsbEmbed]
    rw [if_neg (by omega)]
  rw [hembed]
  show Except.ok (lsbExtractBytes _ maxLength) = Except.ok data
  congr 1
  rw [lsbExtractBytes]
  have hbits : ∀ b ∈ bytesToBits (data ++ [0, 0, 0, 0]), b < 2 := mem_bytesToBits_lt_two
  have hmap : (setLSBs img.data (bytesToBits (data ++ [0, 0, 0, 0]))).map (fun x => x &&& 1)
      = bytesToBits (data ++ [0, 0, 0, 0])
        ++ (img.data.drop (bytesToBits (data ++ [0, 0, 0, 0])).length).map (fun x => x &&& 1) :=
    map_land_one_setLSBs _ img.data hbits (by omega)
  rw [List.map_take, hmap, List.take_append_eq_append_take,
    List.take_of_length_le (by omega)]
  rw [bytesFromBits_bytesToBits_append]
  · exact stopAtDelim_finds data _ hnd
  · intro b hb
    rcases List.mem_append.mp hb with h | h
    · exact hbytes b h
    · have hb0 : b = 0 := by simpa using h
      subst hb0
      norm_num

/-- C1 counterexample: the 5-byte payload `[0,0,0,0,65]` fits the capacity
(5 bytes) of a 9 by 8 grayscale carrier, yet extracting right after
embedding returns `[]`, not the payload: the leading zero bytes are taken
for the delimiter.  So `extract(embed(I, payload)) == payload` fails for a
payload within capacity. -/
theorem claim_C1_counterexample :
    ((([0, 0, 0, 0, 65] : List Nat).length : Int)
        ≤ lsbGetCapacity (Shape.two 9 8)
      ∧ (lsbEmbed { shape := Shape.two 9 8, data := List.replicate 72 0 }
          [0, 0, 0, 0, 65]).map (fun s => lsbExtractBytes s 10000)
        = .ok []
      ∧ ([] : List Nat) ≠ [0, 0, 0, 0, 65]) := by
  refine ⟨by decide, ?_, by decide⟩
  rfl

/-- C1 witness: the round trip holds on a concrete 9 by 8 carrier with the
2-byte payload `[72, 73]`. -/
theorem claim_C1_witness :
    (lsbEmbed { shape := Shape.two 9 8, data := List.replicate 72 0 }
        [72, 73]).map (fun stego => lsbExtractBytes stego 10000)
      = .ok [72, 73] :=
  claim_C1_lsb_roundtrip_amended
    { shape := Shape.two 9 8, data := List.replicate 72 0 } [72, 73] 10000
    (by decide) (by decide) (by decide) (by decide) (by decide) (by decide)

/-- C5 (amended): `LSBSteganography.extract` has no failure path.  When the
four-zero-byte delimiter never occurs in the extracted byte stream, it does
not raise `NoHiddenDataError` (no such error exists in the source); it
returns the entire extracted byte stream, which the source then decodes to
text with errors ignored. -/
theorem claim_C5_no_delimiter_amended (img : Img) (maxLength : Nat)
    (h : ∀ i < (bytesFromBits
        ((img.data.take (maxLength * 8)).map (fun x => x &&& 1))).length,
      ((bytesFromBits ((img.data.take (maxLength * 8)).map
          (fun x => x &&& 1))).drop i).take 4 ≠ [0, 0, 0, 0]) :
    lsbExtractBytes img maxLength
      = bytesFromBits ((img.data.take (maxLength * 8)).map (fun x => x &&& 1)) := by
  rw [lsbExtractBytes]
  exact stopAtDelim_all _ h

/-- C5 counterexample: a 4 by 4 grayscale image whose samples are all `1`
carries no embedded payload and its extracted byte stream `[255, 255]`
contains no delimiter, yet extraction returns that nonempty byte sequence
instead of failing with `NoHiddenDataError`. -/
theorem claim_C5_counterexample :
    ((∀ i < ([255, 255] : List Nat).length,
        (([255, 255] : List Nat).drop i).take 4 ≠ [0, 0, 0, 0])
      ∧ lsbExtractBytes { shape := Shape.two 4 4, data := List.replicate 16 1 } 10000
        = [255, 255]
      ∧ ([255, 255] : List Nat) ≠ []) := by
  refine ⟨by decide, ?_, by decide⟩
  rfl

/-- C5 witness: the amended behaviour on the concrete all-ones 4 by 4 image. -/
theorem claim_C5_witness :
    lsbExtractBytes { shape := Shape.two 4 4, data := List.replicate 16 1 } 10000
      = bytesFromBits
          (((List.replicate 16 1 : List Nat).take (10000 * 8)).map (fun x => x &&& 1)) :=
  claim_C5_no_delimiter_amended
    { shape := Shape.two 4 4, data := List.replicate 16 1 } 10000 (by decide)

/-- C10: whenever `LSBSteganography.embed` succeeds, the result has the same
shape and sample count as the input, and every sample of the result agrees
with the corresponding input sample on its upper 7 bits
(`result & 0xFE == input & 0xFE`).  The source operates on `image.copy()`,
so the input array object of the caller is never mutated, which is why the embedding is
modelled as a pure function from input image to output image. -/
theorem claim_C10_lsb_frame (img : Img) (data : List Nat) (stego : Img)
    (h : lsbEmbed img data = .ok stego) :
    stego.shape = img.shape ∧ stego.data.length = img.data.length
      ∧ stego.data.map (fun x => x &&& 0xFE) = img.data.map (fun x => x &&& 0xFE) := by
  rw [lsbEmbed] at h
  by_cases hc : (bytesToBits (data ++ [0, 0, 0, 0])).length > img.shape.total
  · rw [if_pos hc] at h
    cases h
  · rw [if_neg hc] at h
    injection h with h'
    subst h'
    exact ⟨rfl, length_setLSBs _ _, map_hi_bits_setLSBs _ _ mem_bytesToBits_lt_two⟩

/-- C10 witness: embedding `[72, 73]` into an all-zero 9 by 8 carrier
produces the concrete output below, which satisfies all three frame
conditions. -/
theorem claim_C10_witness :
    (Img.mk (Shape.two 9 8)
        ([0, 1, 0, 0, 1, 0, 0, 0, 0, 1, 0, 0, 1, 0, 0, 1] ++ List.replicate 56 0)).shape
        = (Img.mk (Shape.two 9 8) (List.replicate 72 0)).shape
      ∧ (Img.mk (Shape.two 9 8)
          ([0, 1, 0, 0, 1, 0, 0, 0, 0, 1, 0, 0, 1, 0, 0, 1]
            ++ List.replicate 56 0)).data.length
        = (Img.mk (Shape.two 9 8) (List.replicate 72 0)).data.length
      ∧ (Img.mk (Shape.two 9 8)
          ([0, 1, 0, 0, 1, 0, 0, 0, 0, 1, 0, 0, 1, 0, 0, 1]
            ++ List.replicate 56 0)).data.map (fun x => x &&& 0xFE)
        = (Img.mk (Shape.two 9 8)
            (List.replicate 72 0)).data.map (fun x => x &&& 0xFE) :=
  claim_C10_lsb_frame (Img.mk (Shape.two 9 8) (List.replicate 72 0)) [72, 73]
    (Img.mk (Shape.two 9 8)
      ([0, 1, 0, 0, 1, 0, 0, 0, 0, 1, 0, 0, 1, 0, 0, 1] ++ List.replicate 56 0))
    (by rfl)

theorem except_bind_ok {α β : Type} (a : α) (f : α → Except String β) :
    (Except.ok a : Except String α).bind f = f a := rfl

theorem fdiv_eight_natCast (m : Nat) : (m : Int).fdiv 8 = ((m / 8 : Nat) : Int) := by
  have h := Int.ofNat_fdiv m 8
  have h8 : ((8 : Nat) : Int) = (8 : Int) := by norm_num
  rw [h8] at h
  exact h.symm

/-! ### C7: LSB capacity formula -/

/-- C7: `LSBSteganography.get_capacity` equals the spec formula
`floor((H*W*C - 32)/8)` floored at 0, for 3-D `(H, W, C)` arrays and for 2-D
`(H, W)` arrays (one channel); equivalently, over naturals it is
`(H*W*C - 32) / 8` with truncated subtraction, which is 0 whenever
`H*W*C < 32`. -/
theorem claim_C7_lsb_capacity :
    (∀ h w c : Nat, lsbGetCapacity (Shape.three h w c) = specLsbCapacityFormula h w c)
    ∧ (∀ h w : Nat, lsbGetCapacity (Shape.two h w) = specLsbCapacityFormula h w 1)
    ∧ (∀ s : Shape, lsbGetCapacity s = ((s.total - 32) / 8 : Nat)) := by
  have hnat : ∀ s : Shape, lsbGetCapacity s = ((s.total - 32) / 8 : Nat) := by
    intro s
    rw [lsbGetCapacity_eq, Int.fdiv_eq_ediv _ (by norm_num : (0 : Int) ≤ 8)]
    rcases Nat.lt_or_ge s.total 32 with hlt | hge
    · have hx : ((s.total : Int) - 32) / 8 ≤ 0 := by omega
      rw [max_eq_left hx]
      omega
    · have hx : (0 : Int) ≤ ((s.total : Int) - 32) / 8 :=
        Int.ediv_nonneg (by omega) (by norm_num)
      rw [max_eq_right hx]
      omega
  refine ⟨?_, ?_, hnat⟩
  · intro h w c
    rw [lsbGetCapacity_eq, specLsbCapacityFormula, Shape.total]
    push_cast
    ring_nf
  · intro h w
    rw [lsbGetCapacity_eq, specLsbCapacityFormula, Shape.total]
    push_cast
    ring_nf

/-! ### C3: capacity check happens before embedding -/

/-- C3: inside `encode_async`, a prepared message one byte over the
algorithm capacity makes the engine raise `ValueError`
("Message too large. Max capacity: ... bytes" - the failure the spec names
`CapacityExceededError`) strictly before the algorithm `embed` runs: the
result is this error for EVERY embedding function and capacity function, so
no pixel of the (copied) carrier is ever touched.  Quantifying over
`getCapacity` covers all algorithms dispatched by the engine. -/
theorem claim_C3_capacity_excess_fails_first
    (getCapacity : Shape → Int)
    (embedFn : Img → List Nat → Except String Img)
    (image : Img) (msg : List Nat)
    (h : (msg.length : Int) = getCapacity image.shape + 1) :
    encodeTask getCapacity embedFn image msg = .error "Message too large" := by
  rw [encodeTask]
  rw [if_pos (by omega)]

/-- C3 witness: a 6-byte message on a 9 by 8 grayscale carrier whose LSB
capacity is 5 bytes, with the real LSB embedding function. -/
theorem claim_C3_witness :
    encodeTask lsbGetCapacity lsbEmbed
      { shape := Shape.two 9 8, data := List.replicate 72 0 }
      (List.replicate 6 0) = .error "Message too large" :=
  claim_C3_capacity_excess_fails_first lsbGetCapacity lsbEmbed
    { shape := Shape.two 9 8, data := List.replicate 72 0 }
    (List.replicate 6 0) (by decide)

/-! ### C6: header parsing -/

/-- C6 (amended): `_parse_header` raises `ValueError` ("Invalid data
format") when fewer than 2 bytes are present; but an unrecognized
`cipher_id` does NOT fail: `method_map.get(method_id, "AES-256")` silently
substitutes the default suite `"AES-256"`. -/
theorem claim_C6_parse_header_amended :
    (∀ data : List Nat, data.length < 2 →
        parseHeader data = .error "Invalid data format")
    ∧ (∀ (flags methodId : Nat) (body : List Nat),
        methodId ≠ 0 → methodId ≠ 1 → methodId ≠ 2 →
        parseHeader (flags :: methodId :: body)
          = .ok { encrypted := flags &&& 1 != 0, compressed := flags &&& 2 != 0,
                  encryptionMethod := "AES-256", headerSize := 2 }) := by
  constructor
  · intro data hlen
    rw [parseHeader, if_pos hlen]
  · intro flags methodId body h0 h1 h2
    rw [parseHeader, if_neg (by simp)]
    have hm : methodName methodId = "AES-256" := by
      rw [methodName, if_neg h0, if_neg h1, if_neg h2]
    simp only [List.getElem!_cons_zero, List.getElem!_cons_succ, hm]

/-- C6 counterexample: `cipher_id = 7` is not one of the recognized
identifiers 0, 1, 2, yet parsing succeeds with the silently substituted
default suite `"AES-256"` instead of failing. -/
theorem claim_C6_counterexample :
    ((7 : Nat) ≠ 0 ∧ (7 : Nat) ≠ 1 ∧ (7 : Nat) ≠ 2)
    ∧ parseHeader [0, 7]
      = .ok { encrypted := false, compressed := false,
              encryptionMethod := "AES-256", headerSize := 2 } :=
  ⟨by decide, rfl⟩

/-- C6 witness: both amended behaviours at concrete inputs: the 1-byte
input `[5]` is rejected, and `cipher_id = 9` parses to the default suite. -/
theorem claim_C6_witness :
    parseHeader [5] = .error "Invalid data format"
    ∧ parseHeader [3, 9, 65]
      = .ok { encrypted := (3 : Nat) &&& 1 != 0, compressed := (3 : Nat) &&& 2 != 0,
              encryptionMethod := "AES-256", headerSize := 2 } :=
  ⟨claim_C6_parse_header_amended.1 [5] (by decide),
   claim_C6_parse_header_amended.2 3 9 [65] (by decide) (by decide) (by decide)⟩

/-! ### C4: decoding an encrypted frame without a password -/

/-- C4 (amended): when the extracted frame has the encrypted flag set and
the supplied password is empty, `_process_extracted_data` does NOT fail
with `DecryptionFailedError` (no such error exists in the source): the
`if header_info["encrypted"] and password:` guard silently skips
decryption, and the raw (still-encrypted) body flows on to the
decompression step and the UTF-8 decode; whenever those succeed, the
undecrypted bytes are returned as though they were the decoded message. -/
theorem claim_C4_empty_password_amended
    (decryptFn : List Nat → String → String → Except String (List Nat))
    (decompressFn : List Nat → Except String (List Nat))
    (flags methodId : Nat) (body : List Nat)
    (henc : flags &&& 1 ≠ 0) :
    (parseHeader (flags :: methodId :: body)).map (fun h => h.encrypted) = .ok true
    ∧ processExtractedData decryptFn decompressFn (flags :: methodId :: body) ""
      = (if flags &&& 2 != 0 then decompressFn body else .ok body).bind
          (fun m => if utf8Valid m then .ok m else .error "UnicodeDecodeError") := by
  have hparse : parseHeader (flags :: methodId :: body)
      = .ok { encrypted := flags &&& 1 != 0, compressed := flags &&& 2 != 0,
              encryptionMethod := methodName methodId, headerSize := 2 } := by
    rw [parseHeader, if_neg (by simp)]
    simp only [List.getElem!_cons_zero, List.getElem!_cons_succ]
  constructor
  · rw [hparse]
    show Except.ok (flags &&& 1 != 0) = Except.ok true
    congr 1
    simpa using henc
  · rw [processExtractedData, hparse, except_bind_ok]
    rw [if_neg (by simp)]
    rfl

/-- C4 counterexample: the frame `[1, 0, 65, 66]` has the encrypted flag
set; decoding it with an empty password returns the undecrypted body
`[65, 66]` (the text "AB") as a successfully decoded message - even when
the decryption and decompression collaborators always fail, because neither
is consulted. -/
theorem claim_C4_counterexample :
    processExtractedData (fun _ _ _ => .error "DecryptionFailedError")
      (fun _ => .error "DecompressionError") [1, 0, 65, 66] "" = .ok [65, 66]
    ∧ parseHeader [1, 0, 65, 66]
      = .ok { encrypted := true, compressed := false,
              encryptionMethod := "AES-256", headerSize := 2 } :=
  ⟨rfl, rfl⟩

/-- C4 witness: the amended claim at the concrete frame `[1, 0, 65, 66]`
with always-failing collaborators. -/
theorem claim_C4_witness :
    (parseHeader [1, 0, 65, 66]).map (fun h => h.encrypted) = .ok true
    ∧ processExtractedData (fun _ _ _ => .error "DecryptionFailedError")
        (fun _ => .error "DecompressionError") [1, 0, 65, 66] ""
      = (if (1 : Nat) &&& 2 != 0 then
            (fun _ => (.error "DecompressionError" : Except String (List Nat))) [65, 66]
          else .ok [65, 66]).bind
          (fun m => if utf8Valid m then .ok m else .error "UnicodeDecodeError") :=
  claim_C4_empty_password_amended (fun _ _ _ => .error "DecryptionFailedError")
    (fun _ => .error "DecompressionError") 1 0 [65, 66] (by decide)

/-! ### C8: DCT capacity -/

/-- C8 (amended): `DCTSteganography.get_capacity` is
`((H // 8) * (W // 8) * C) // 8` (one bit per 8 by 8 block, divided by 8 to
get bytes), NOT `floor((H*W)/64)`: for the 64 by 64 grayscale carrier the
capacity is 8 bytes, not 64.  It remains true that embedding a 65-byte
message fails the engine capacity check before any embedding, since
65 > 8. -/
theorem claim_C8_dct_capacity_amended :
    (∀ h w c : Nat,
        dctGetCapacity (Shape.three h w c) = ((h / 8) * (w / 8) * c / 8 : Nat))
    ∧ (∀ h w : Nat, dctGetCapacity (Shape.two h w) = ((h / 8) * (w / 8) / 8 : Nat))
    ∧ dctGetCapacity (Shape.two 64 64) = 8
    ∧ (∀ (embedFn : Img → List Nat → Except String Img) (msg : List Nat),
        msg.length = 65 →
        encodeTask dctGetCapacity embedFn
          { shape := Shape.two 64 64, data := List.replicate 4096 128 } msg
          = .error "Message too large") := by
  have hthree : ∀ h w c : Nat,
      dctGetCapacity (Shape.three h w c) = ((h / 8) * (w / 8) * c / 8 : Nat) := by
    intro h w c
    show max 0 (((((h : Int).fdiv 8) * ((w : Int).fdiv 8) * c) * 1).fdiv 8)
        = ((h / 8) * (w / 8) * c / 8 : Nat)
    rw [mul_one, fdiv_eight_natCast h, fdiv_eight_natCast w]
    have hc : ((h / 8 : Nat) : Int) * ((w / 8 : Nat) : Int) * (c : Int)
        = (((h / 8) * (w / 8) * c : Nat) : Int) := by push_cast; ring
    rw [hc, fdiv_eight_natCast]
    exact max_eq_right (Int.natCast_nonneg _)
  have htwo : ∀ h w : Nat,
      dctGetCapacity (Shape.two h w) = ((h / 8) * (w / 8) / 8 : Nat) := by
    intro h w
    show max 0 (((((h : Int).fdiv 8) * ((w : Int).fdiv 8) * 1) * 1).fdiv 8)
        = ((h / 8) * (w / 8) / 8 : Nat)
    rw [mul_one, mul_one, fdiv_eight_natCast h, fdiv_eight_natCast w]
    have hc : ((h / 8 : Nat) : Int) * ((w / 8 : Nat) : Int)
        = (((h / 8) * (w / 8) : Nat) : Int) := by push_cast; ring
    rw [hc, fdiv_eight_natCast]
    exact max_eq_right (Int.natCast_nonneg _)
  refine ⟨hthree, htwo, by decide, ?_⟩
  intro embedFn msg hlen
  rw [encodeTask]
  rw [if_pos (by rw [hlen]; decide)]

/-- C8 counterexample: for the spec scenario (64 by 64 grayscale carrier)
the code computes a DCT capacity of 8 bytes, while the spec formula
`floor(64*64/64)` gives 64. -/
theorem claim_C8_counterexample :
    dctGetCapacity (Shape.two 64 64) = 8
    ∧ specDctCapacityFormula 64 64 = 64
    ∧ (8 : Int) ≠ 64 := by decide

/-- C8 witness: a concrete 65-byte message fails the engine capacity check
on the 64 by 64 carrier for every embedding function, instantiated here with
the LSB embedding function. -/
theorem claim_C8_witness :
    encodeTask dctGetCapacity lsbEmbed
      { shape := Shape.two 64 64, data := List.replicate 4096 128 }
      (List.replicate 65 7) = .error "Message too large" :=
  (claim_C8_dct_capacity_amended.2.2.2) lsbEmbed (List.replicate 65 7) (by decide)

/-! ### C2: encryption round trips -/

theorem unpadData_padData (data : List Nat) : unpadData (padData data) = data := by
  obtain ⟨q, hq⟩ : ∃ q, 16 - data.length % 16 = q + 1 :=
    ⟨16 - data.length % 16 - 1, by omega⟩
  show (data ++ List.replicate (16 - data.length % 16) (16 - data.length % 16)).take
      ((data ++ List.replicate (16 - data.length % 16) (16 - data.length % 16)).length
        - ((data ++ List.replicate (16 - data.length % 16)
            (16 - data.length % 16)).getLast?.getD 0)) = data
  rw [hq]
  have hlast : (data ++ List.replicate (q + 1) (q + 1)).getLast? = some (q + 1) := by
    rw [List.replicate_succ', ← List.append_assoc]
    exact List.getLast?_concat _
  rw [hlast]
  have hlen : (data ++ List.replicate (q + 1) (q + 1)).length
      = data.length + (q + 1) := by simp
  rw [hlen]
  simp only [Option.getD_some]
  exact List.take_left' (by omega)

/-- C2: for each of the three cipher suites, decrypting an encryption with
the same password returns the original data: the blob slicing
(`salt || iv || ct`, `salt || nonce || ct`, `salt || token`) recovers
exactly the prefixes that were prepended, the key is re-derived from the
same password and salt, and `_unpad_data` inverts `_pad_data`.  The inverse
properties of the external AES-CBC / ChaCha20 / Fernet primitives are
hypotheses (library guarantees), as are the salt/iv/nonce sizes produced by
`os.urandom(16)` / `os.urandom(16)` / `os.urandom(12)`. -/
theorem claim_C2_cipher_roundtrips (P : CryptoPrimitives)
    (data : List Nat) (password : String) (salt iv nonce : List Nat)
    (hsalt : salt.length = 16) (hiv : iv.length = 16) (hnonce : nonce.length = 12)
    (haes : ∀ key iv2 x, P.aesCbcDec key iv2 (P.aesCbcEnc key iv2 x) = x)
    (hchacha : ∀ key n x, P.chachaDec key n (P.chachaEnc key n x) = x)
    (hfernet : ∀ key x, P.fernetDec key (P.fernetEnc key x) = .ok x) :
    ((encryptManager P data password "AES-256" salt iv nonce).bind
        (fun blob => decryptManager P blob password "AES-256") = .ok data)
    ∧ ((encryptManager P data password "ChaCha20" salt iv nonce).bind
        (fun blob => decryptManager P blob password "ChaCha20") = .ok data)
    ∧ ((encryptManager P data password "Fernet" salt iv nonce).bind
        (fun blob => decryptManager P blob password "Fernet") = .ok data) := by
  refine ⟨?_, ?_, ?_⟩
  · rw [encryptManager, if_pos rfl, except_bind_ok, decryptManager, if_pos rfl]
    show Except.ok (decryptAes P (encryptAes P data password salt iv) password)
        = Except.ok data
    congr 1
    rw [encryptAes, decryptAes, List.append_assoc]
    have h1 : (salt ++ (iv ++ P.aesCbcEnc (P.deriveKey password salt) iv
        (padData data))).take 16 = salt := List.take_left' hsalt
    have h2 : (salt ++ (iv ++ P.aesCbcEnc (P.deriveKey password salt) iv
        (padData data))).drop 16 = iv ++ P.aesCbcEnc (P.deriveKey password salt) iv
        (padData data) := List.drop_left' hsalt
    have h3 : (iv ++ P.aesCbcEnc (P.deriveKey password salt) iv
        (padData data)).take 16 = iv := List.take_left' hiv
    have h4 : (salt ++ (iv ++ P.aesCbcEnc (P.deriveKey password salt) iv
        (padData data))).drop 32 = P.aesCbcEnc (P.deriveKey password salt) iv
        (padData data) := by
      rw [← List.append_assoc]
      exact List.drop_left' (by rw [List.length_append]; omega)
    rw [h1, h2, h3, h4, haes, unpadData_padData]
  · rw [encryptManager, if_neg (by decide), if_pos rfl, except_bind_ok,
      decryptManager, if_neg (by decide), if_pos rfl]
    show Except.ok (decryptChacha P (encryptChacha P data password salt nonce) password)
        = Except.ok data
    congr 1
    rw [encryptChacha, decryptChacha, List.append_assoc]
    have h1 : (salt ++ (nonce ++ P.chachaEnc (P.deriveKey password salt) nonce
        data)).take 16 = salt := List.take_left' hsalt
    have h2 : (salt ++ (nonce ++ P.chachaEnc (P.deriveKey password salt) nonce
        data)).drop 16 = nonce ++ P.chachaEnc (P.deriveKey password salt) nonce
        data := List.drop_left' hsalt
    have h3 : (nonce ++ P.chachaEnc (P.deriveKey password salt) nonce
        data).take 12 = nonce := List.take_left' hnonce
    have h4 : (salt ++ (nonce ++ P.chachaEnc (P.deriveKey password salt) nonce
        data)).drop 28 = P.chachaEnc (P.deriveKey password salt) nonce data := by
      rw [← List.append_assoc]
      exact List.drop_left' (by rw [List.length_append]; omega)
    rw [h1, h2, h3, h4, hchacha]
  · rw [encryptManager, if_neg (by decide), if_neg (by decide), if_pos rfl,
      except_bind_ok, decryptManager, if_neg (by decide), if_neg (by decide),
      if_pos rfl]
    rw [encryptFernet, decryptFernet]
    have h1 : (salt ++ P.fernetEnc (P.deriveKey password salt) data).take 16
        = salt := List.take_left' hsalt
    have h2 : (salt ++ P.fernetEnc (P.deriveKey password salt) data).drop 16
        = P.fernetEnc (P.deriveKey password salt) data := List.drop_left' hsalt
    rw [h1, h2, hfernet]

/-- C2 witness: the three round trips at a concrete payload, password and
salt/iv/nonce, with the trivial primitives instantiating the library
hypotheses. -/
theorem claim_C2_witness :
    ((encryptManager idPrimitives [1, 2, 3] "pw" "AES-256"
        (List.replicate 16 0) (List.replicate 16 0) (List.replicate 12 0)).bind
      (fun blob => decryptManager idPrimitives blob "pw" "AES-256") = .ok [1, 2, 3])
    ∧ ((encryptManager idPrimitives [1, 2, 3] "pw" "ChaCha20"
        (List.replicate 16 0) (List.replicate 16 0) (List.replicate 12 0)).bind
      (fun blob => decryptManager idPrimitives blob "pw" "ChaCha20") = .ok [1, 2, 3])
    ∧ ((encryptManager idPrimitives [1, 2, 3] "pw" "Fernet"
        (List.replicate 16 0) (List.replicate 16 0) (List.replicate 12 0)).bind
      (fun blob => decryptManager idPrimitives blob "pw" "Fernet") = .ok [1, 2, 3]) :=
  claim_C2_cipher_roundtrips idPrimitives [1, 2, 3] "pw"
    (List.replicate 16 0) (List.replicate 16 0) (List.replicate 12 0)
    (by decide) (by decide) (by decide)
    (fun _ _ _ => rfl) (fun _ _ _ => rfl) (fun _ _ => rfl)

/-! ### C9: PSNR and MSE -/

theorem mseVal_self (l : List Nat) : mseVal l l = 0 := by
  have hnum : ((l.zip l).map (fun p => ((p.1 : ℝ) - (p.2 : ℝ)) ^ 2)).sum = 0 := by
    induction l with
    | nil => simp
    | cons a l ih => simp [List.zip_cons_cons, ih]
  rw [mseVal, hnum, zero_div]

theorem wrapSqDiff_self (a : Nat) : wrapSqDiff a a = 0 := by
  rw [wrapSqDiff]
  have h : a + 256 - a = 256 := by omega
  rw [h]
  norm_num

theorem mseUint8_self (l : List Nat) : mseUint8 l l = 0 := by
  have hnum : ((l.zip l).map (fun p => (wrapSqDiff p.1 p.2 : ℝ))).sum = 0 := by
    induction l with
    | nil => simp
    | cons a l ih => simp [List.zip_cons_cons, ih, wrapSqDiff_self]
  rw [mseUint8, hnum, zero_div]

/-- C9 (amended): analyzing an image against itself still yields
`mse == 0` and `psnr == +infinity`.  But in general `calculate_psnr`
computes its internal MSE on the raw `uint8` arrays, where each per-pixel
difference and its square wrap modulo 256: the PSNR equals `+infinity`
exactly when that WRAPPED mean is 0 - which can happen at nonzero true MSE
- and otherwise equals `20*log10(255/sqrt(wrapped mse))`, not the claimed
formula in the true MSE. -/
theorem claim_C9_psnr_amended :
    (∀ img : Img, analyzeQuality img img
        = .ok { psnr := PsnrValue.inf, mse := 0 })
    ∧ (∀ orig stego : List Nat,
        calculatePsnr orig stego = .inf ↔ mseUint8 orig stego = 0)
    ∧ (∀ orig stego : List Nat, mseUint8 orig stego ≠ 0 →
        calculatePsnr orig stego
          = .val (20 * Real.logb 10 (255 / Real.sqrt (mseUint8 orig stego)))) := by
  have hiff : ∀ orig stego : List Nat,
      calculatePsnr orig stego = .inf ↔ mseUint8 orig stego = 0 := by
    intro orig stego
    rw [calculatePsnr]
    by_cases h : mseUint8 orig stego = 0
    · rw [if_pos h]
      simp [h]
    · rw [if_neg h]
      simp [h]
  refine ⟨?_, hiff, ?_⟩
  · intro img
    rw [analyzeQuality, if_neg (by simp)]
    have hpsnr : calculatePsnr img.data img.data = .inf := by
      rw [calculatePsnr, if_pos (mseUint8_self img.data)]
    rw [hpsnr, mseVal_self]
  · intro orig stego h
    rw [calculatePsnr, if_neg h]

/-- C9 counterexample: on the one-sample images `[0]` and `[16]` the
reported MSE is 256, nonzero, yet the PSNR is `+infinity`: inside
`calculate_psnr` the uint8 difference is 240 and 240 squared is 57600,
which is 0 modulo 256.  So PSNR is NOT `+infinity` exactly when MSE is 0,
and at this nonzero MSE it also fails to equal the claimed finite closed
form `20*log10(255/sqrt(256))`. -/
theorem claim_C9_counterexample :
    analyzeQuality { shape := Shape.two 1 1, data := [0] }
        { shape := Shape.two 1 1, data := [16] }
      = .ok { psnr := PsnrValue.inf, mse := 256 }
    ∧ (256 : ℝ) ≠ 0 := by
  constructor
  · rw [analyzeQuality, if_neg (by simp)]
    have hwrap : wrapSqDiff 0 16 = 0 := by decide
    have hmseU : mseUint8 [0] [16] = 0 := by
      simp [mseUint8, hwrap]
    have hpsnr : calculatePsnr [0] [16] = .inf := by
      rw [calculatePsnr, if_pos hmseU]
    have hmse : mseVal [0] [16] = 256 := by
      norm_num [mseVal]
    rw [hpsnr, hmse]
  · norm_num

/-- C9 witness: on the one-sample images `[0]` and `[1]` the wrapped MSE
is 1 (255 squared is 1 modulo 256), which is nonzero, and the PSNR takes
the finite closed-form value. -/
theorem claim_C9_witness :
    calculatePsnr [0] [1]
      = .val (20 * Real.logb 10 (255 / Real.sqrt (mseUint8 [0] [1]))) :=
  claim_C9_psnr_amended.2.2 [0] [1] (by
    have hwrap : wrapSqDiff 0 1 = 1 := by decide
    simp [mseUint8, hwrap])

end StegApp
